import Mathlib

/-!
Verification of the DataScraper aggregation-and-extraction pipeline.

The pure computations of `src/server/index.js` (with the variants in
`src/server/scraper.js` and `src/unnamed/part_000`) are embedded as Lean
functions; network and filesystem effects appear as explicit oracle
parameters (`Except` results for fallible calls), and the `p-limit`
concurrency queue is modelled as a small-step transition system.
-/

namespace DataScraper

/-! ## String utilities (`clean`, `safeFileName`) -/

/-- Whitespace test standing for the `\s` character class of the regexes in
`clean` and `trim`. -/
def isWs (c : Char) : Bool := c.isWhitespace

/-- Collapse every maximal whitespace run to a single space, as in the JS
`s.replace` with pattern `\s+` and replacement a single space; the boolean
records whether the previous character belonged to a whitespace run. -/
def collapseWs : Bool → List Char → List Char
  | _, [] => []
  | prevWs, c :: cs =>
    if isWs c then
      if prevWs then collapseWs true cs else ' ' :: collapseWs true cs
    else c :: collapseWs false cs

/-- Remove leading and trailing whitespace, as `String.prototype.trim` does. -/
def trimWs (l : List Char) : List Char :=
  ((l.dropWhile isWs).reverse.dropWhile isWs).reverse

/-- The helper `clean` of src/server/index.js line 34: collapse whitespace
runs, then trim; a missing input is the empty string. -/
def clean (s : String) : String :=
  String.mk (trimWs (collapseWs false s.data))

/-- The helper `safeFileName` of src/server/index.js lines 36-40, applied to
the results of the two slugify calls (a third-party function, so taken here as
arbitrary character lists): pick the title slug unless it is empty, else the
fallback slug, strip the leading run of dots, and keep at most the first 120
characters. -/
def safeFileName (slugStr slugFb : List Char) : List Char :=
  (((if slugStr = [] then slugFb else slugStr).dropWhile fun c => c = '.').take 120)

/-! ## Article extractor (`scrapeFullText` block collection) -/

/-- One flattened DOM element of a fetched page: tag name and text content. -/
structure Node where
  tag : String
  text : String
deriving DecidableEq, Repr

/-- Selector `h2, h3` of the extractor. -/
def isHeading (n : Node) : Bool := n.tag = "h2" || n.tag = "h3"

/-- Selector `p` of the extractor. -/
def isPara (n : Node) : Bool := n.tag = "p"

/-- One cheerio `.each` pass of the extractor: the cleaned, non-empty texts of
the selected elements, in document order. -/
def collectTexts (sel : Node → Bool) : List Node → List String
  | [] => []
  | n :: rest =>
    if sel n then
      (if clean n.text = "" then collectTexts sel rest
       else clean n.text :: collectTexts sel rest)
    else collectTexts sel rest

/-- The block-collection step of `scrapeFullText` (src/server/index.js lines
128-134): headings (h2, h3) of the chosen scope first, then paragraphs of the
scope; if that yields nothing, one wide fallback pass over every paragraph of
the whole document. -/
def scrapeBlocks (scope doc : List Node) : List String :=
  let blocks := collectTexts isHeading scope ++ collectTexts isPara scope
  if blocks = [] then collectTexts isPara doc else blocks

/-- Block collection as the spec words it: heading (h2-h3) and paragraph texts
of the chosen scope interleaved exactly in document order. -/
def docOrderBlocks (scope : List Node) : List String :=
  collectTexts (fun n => isHeading n || isPara n) scope

/-- Heading or paragraph texts of a node list as an order-preserving
filter-then-map, used to state in which order `scrapeBlocks` emits them. -/
def selTexts (sel : Node → Bool) (l : List Node) : List String :=
  ((l.filter sel).map fun n => clean n.text).filter fun t => t ≠ ""

/-! ## Feed fetching and deduplication -/

/-- One feed entry built by `fetchNews` of src/server/index.js; absent RSS
fields are the empty string, and `isoDate` is modelled as the timestamp that
the ISO string denotes (the sort comparator re-parses it with `new Date`). -/
structure FeedItem where
  title : String
  link : String
  source : String
  pubDate : String
  isoDate : Int
deriving DecidableEq, Repr

/-- One raw item of the parsed RSS channel, before date filtering. -/
structure RssItem where
  title : String
  link : String
  source : String
  pubDate : String
deriving DecidableEq, Repr

/-- Result of `formatDate` for a parseable date: the derived presentation
fields and the timestamp standing for the ISO string. -/
structure DateInfo where
  year : Int
  month : String
  day : String
  iso : Int
deriving DecidableEq, Repr

/-- The body of `fetchNews` (src/server/index.js lines 161-197) over oracles:
`fetchO` is the RSS GET, `parseO` the XML parse of the body, `dateParse` the
`new Date` parsing inside `formatDate` (`none` when the time is NaN).  The
whole body sits in one try/catch whose handler returns the empty list, and
items whose date fails to parse are dropped by the `filter(Boolean)`. -/
def fetchNews (fetchO : Except String String)
    (parseO : String → Except String (List RssItem))
    (dateParse : String → Option DateInfo) : List FeedItem :=
  match fetchO with
  | .error _ => []
  | .ok body =>
    match parseO body with
    | .error _ => []
    | .ok items =>
      items.filterMap fun it =>
        match dateParse it.pubDate with
        | none => none
        | some d =>
          some { title := it.title, link := it.link, source := it.source,
                 pubDate := it.pubDate, isoDate := d.iso }

/-- Network and parser behaviour for one year of the fan-out. -/
structure YearEnv where
  fetchO : Except String String
  parseO : String → Except String (List RssItem)

/-- The concatenation loop of `fetchAllYears` (src/server/index.js lines
200-207) before deduplication: one `fetchNews` per year in year order; the
politeness delay does not affect the value computed. -/
def fetchYearsConcat (dateParse : String → Option DateInfo)
    (env : Int → YearEnv) : List Int → List FeedItem
  | [] => []
  | y :: ys =>
    fetchNews (env y).fetchO (env y).parseO dateParse ++
      fetchYearsConcat dateParse env ys

/-- The stateful first-occurrence filter of both `fetchAllYears` variants: a
growing `seen` set of keys, an item surviving iff its key is new. -/
def dedupByKey (key : α → String) (seen : List String) : List α → List α
  | [] => []
  | i :: rest =>
    if key i ∈ seen then dedupByKey key seen rest
    else i :: dedupByKey key (key i :: seen) rest

/-- Dedup key used by `fetchAllYears` of src/server/index.js line 211: the
item's `link` alone. -/
def linkKey (i : FeedItem) : String := i.link

/-- Comparator of `fetchAllYears` line 216, descending by date. -/
def byDateDesc (a b : FeedItem) : Prop := b.isoDate ≤ a.isoDate

instance : DecidableRel byDateDesc := fun a b => Int.decLe b.isoDate a.isoDate

instance : IsTotal FeedItem byDateDesc :=
  ⟨fun a b => Int.le_total b.isoDate a.isoDate⟩

instance : IsTrans FeedItem byDateDesc :=
  ⟨fun _ _ _ hab hbc => Int.le_trans hbc hab⟩

/-- The dedup-and-sort step of `fetchAllYears` (src/server/index.js lines
208-217): first occurrence per `link`, then a stable sort descending by date
(JS `Array.prototype.sort` is stable, so a stable insertion sort models it). -/
def dedupAndSort (l : List FeedItem) : List FeedItem :=
  (dedupByKey linkKey [] l).insertionSort byDateDesc

/-- One feed entry built by `fetchRssItems` of src/unnamed/part_000, which
additionally carries an early `publisherUrl` mined from the RSS description
(falling back to the link). -/
structure FeedItemP0 where
  title : String
  link : String
  publisherUrl : String
  source : String
  pubDate : String
  isoDate : Int
deriving DecidableEq, Repr

/-- Dedup key of `fetchAllYears` in src/unnamed/part_000 line 102, the JS
expression `it.publisherUrl || it.link || it.title` (JS `||` skips empty
strings and absent values). -/
def p0Key (it : FeedItemP0) : String :=
  if it.publisherUrl ≠ "" then it.publisherUrl
  else if it.link ≠ "" then it.link
  else it.title

/-- Dedup key as the spec words it, for items that carry a publisher URL
field: the first non-empty field among publisher URL, tracking link, title. -/
def dedupKeySpecP0 (it : FeedItemP0) : String :=
  if it.publisherUrl ≠ "" then it.publisherUrl
  else if it.link ≠ "" then it.link
  else it.title

/-- Dedup key as the spec words it, restricted to the items of
src/server/index.js, which never carry a publisher URL: the first non-empty
field among tracking link and title. -/
def dedupKeySpec (it : FeedItem) : String :=
  if it.link ≠ "" then it.link else it.title

/-! ## Redirect resolver -/

/-- The function `resolveFinalUrl` of src/server/index.js lines 55-79, over
oracles for the two HTTP clients: `primary` is the follow-redirects attempt
and `fallback` the permissive axios attempt, each yielding a possibly absent
`responseUrl` (defaulted to the input, as the JS `||` does) or a transport
error.  A primary failure is caught and retried on the fallback; a fallback
failure is caught and degrades to the input URL. -/
def resolveFinalUrl (primary fallback : Except String (Option String))
    (gnUrl : String) : Except String String :=
  match primary with
  | .ok respUrl => .ok (respUrl.getD gnUrl)
  | .error _ =>
    match fallback with
    | .ok respUrl => .ok (respUrl.getD gnUrl)
    | .error _ => .ok gnUrl

/-! ## Extraction jobs and the manifest -/

/-- The fields of a `scrapeFullText` result that one pooled job reads. -/
structure Scraped where
  title : Option String
  wordCount : Nat
  outPath : String
deriving DecidableEq, Repr

/-- Per-item oracle for one job of /api/news/full: the outcomes of the two
redirect-resolution clients for the item's link and of `scrapeFullText` at
each candidate URL. -/
structure JobEnv where
  primary : Except String (Option String)
  fallback : Except String (Option String)
  scrape : String → Except String Scraped

/-- One entry of the `results` array of /api/news/full (src/server/index.js
lines 258-276): exactly the fields the success and the failure branch
return. -/
structure RunOutcome where
  ok : Bool
  i : Nat
  item : FeedItem
  finalUrl : Option String
  outPath : Option String
  title : Option String
  wordCount : Option Nat
  error : Option String
deriving DecidableEq, Repr

/-- The body of one pooled job (src/server/index.js lines 259-275): resolve
the tracking link, scrape the resolved URL, and catch any failure of either
stage into a not-ok outcome carrying the error message.  The job reads only
its own item and that item's oracle entry. -/
def runJob (env : FeedItem → JobEnv) (idx : Nat) (it : FeedItem) : RunOutcome :=
  match resolveFinalUrl (env it).primary (env it).fallback it.link with
  | .error e =>
      { ok := false, i := idx + 1, item := it, finalUrl := none, outPath := none,
        title := none, wordCount := none, error := some e }
  | .ok finalUrl =>
    match (env it).scrape finalUrl with
    | .ok s =>
        { ok := true, i := idx + 1, item := it, finalUrl := some finalUrl,
          outPath := some s.outPath, title := s.title,
          wordCount := some s.wordCount, error := none }
    | .error e =>
        { ok := false, i := idx + 1, item := it, finalUrl := none, outPath := none,
          title := none, wordCount := none, error := some e }

/-- JS `a || b` on a nullable string: the fallback replaces both an absent
and an empty value. -/
def jsOr (a : Option String) (b : String) : String :=
  match a with
  | some s => if s = "" then b else s
  | none => b

/-- One entry of the manifest's `files` list. -/
structure FileEntry where
  title : String
  finalUrl : Option String
  pubDate : String
  source : String
  outPath : Option String
  words : Option Nat
deriving DecidableEq, Repr

/-- One entry of the manifest's `errors` list. -/
structure ErrorEntry where
  title : String
  link : String
  msg : Option String
deriving DecidableEq, Repr

/-- The run manifest; `generatedAt` is wall-clock and not modelled. -/
structure Manifest where
  query : String
  requested : Nat
  saved : Nat
  failed : Nat
  files : List FileEntry
  errors : List ErrorEntry
deriving DecidableEq, Repr

/-- Manifest construction of /api/news/full (src/server/index.js lines
280-301); `path.relative` is kept as the stored output path. -/
def buildManifest (query : String) (picked : List FeedItem)
    (results : List RunOutcome) : Manifest :=
  { query := query
    requested := picked.length
    saved := (results.filter fun r => r.ok).length
    failed := (results.filter fun r => !r.ok).length
    files := (results.filter fun r => r.ok).map fun r =>
      { title := jsOr r.title r.item.title, finalUrl := r.finalUrl,
        pubDate := r.item.pubDate, source := r.item.source,
        outPath := r.outPath, words := r.wordCount }
    errors := (results.filter fun r => !r.ok).map fun r =>
      { title := r.item.title, link := r.item.link, msg := r.error } }

/-- The value computed by /api/news/full from the fetched feed entries
(src/server/index.js lines 244-304): dedup and sort, cap by `limit` when
positive, run one job per picked item (`Promise.all` keeps exactly one result
per job, in dispatch order), and build the manifest. -/
def runFullPipeline (env : FeedItem → JobEnv) (query : String)
    (fetched : List FeedItem) (limit : Nat) : Manifest :=
  let items := dedupAndSort fetched
  let picked := if limit > 0 then items.take limit else items
  buildManifest query picked (picked.mapIdx fun idx it => runJob env idx it)

/-! ## The bounded-concurrency pool -/

/-- State of the bounded-concurrency region: items not yet started, items
whose job is in flight, and the outcomes finished so far. -/
structure PoolState (α β : Type) where
  pending : List α
  running : List α
  done : List β
deriving DecidableEq, Repr

/-- Modelled from the spec: the scheduling discipline of the `p-limit`
concurrency queue (a third-party dependency, so its code is not under src/)
driving the jobs of /api/news/full.  A job may start only while fewer than
`n` are in flight, and a finishing job leaves the in-flight set and appends
the outcome that `f` assigns to its item. -/
inductive PoolStep (n : Nat) (f : α → β) : PoolState α β → PoolState α β → Prop
  | start (it : α) (rest running : List α) (done : List β) :
      running.length < n →
      PoolStep n f ⟨it :: rest, running, done⟩ ⟨rest, it :: running, done⟩
  | finish (pending r1 r2 : List α) (it : α) (done : List β) :
      PoolStep n f ⟨pending, r1 ++ it :: r2, done⟩
        ⟨pending, r1 ++ r2, f it :: done⟩

/-- Pool states reachable from dispatching `jobs` into an idle pool. -/
inductive PoolReach (n : Nat) (f : α → β) (jobs : List α) :
    PoolState α β → Prop
  | init : PoolReach n f jobs ⟨jobs, [], []⟩
  | step {s t} : PoolReach n f jobs s → PoolStep n f s t → PoolReach n f jobs t

/-! ## Helper lemmas -/

/-- Splitting a list by a boolean predicate preserves its length. -/
theorem length_filter_add_length_filter_not (p : α → Bool) (l : List α) :
    (l.filter p).length + (l.filter fun a => !p a).length = l.length := by
  induction l with
  | nil => rfl
  | cons a as ih => by_cases h : p a <;> simp [List.filter_cons, h, ← ih] <;> omega

/-- The accumulating `.each` pass equals the order-preserving
filter-then-map-then-filter form. -/
theorem collectTexts_eq_selTexts (sel : Node → Bool) (l : List Node) :
    collectTexts sel l = selTexts sel l := by
  induction l with
  | nil => rfl
  | cons n rest ih =>
    by_cases h : sel n
    · by_cases ht : clean n.text = "" <;>
        simp [collectTexts, selTexts, List.filter_cons, h, ht, ih]
    · simp [collectTexts, selTexts, List.filter_cons, h, ih]

/-- The first-occurrence filter emits pairwise distinct keys, none of them
already in the `seen` set. -/
theorem dedupByKey_keys_nodup (key : α → String) :
    ∀ (l : List α) (seen : List String),
      ((dedupByKey key seen l).map key).Nodup ∧
        ∀ k ∈ (dedupByKey key seen l).map key, k ∉ seen := by
  intro l
  induction l with
  | nil => intro seen; exact ⟨List.nodup_nil, by simp [dedupByKey]⟩
  | cons i rest ih =>
    intro seen
    by_cases h : key i ∈ seen
    · simpa [dedupByKey, h] using ih seen
    · obtain ⟨hnodup, hfresh⟩ := ih (key i :: seen)
      refine ⟨?_, ?_⟩
      · simp only [dedupByKey, if_neg h, List.map_cons, List.nodup_cons]
        exact ⟨fun hmem => (hfresh _ hmem) (List.mem_cons_self _ _), hnodup⟩
      · intro k hk
        simp only [dedupByKey, if_neg h, List.map_cons, List.mem_cons] at hk
        rcases hk with rfl | hk
        · exact h
        · exact fun hs => (hfresh k hk) (List.mem_cons_of_mem _ hs)

/-- A list whose keys are pairwise distinct and disjoint from `seen` passes
the first-occurrence filter unchanged. -/
theorem dedupByKey_eq_self (key : α → String) :
    ∀ (l : List α) (seen : List String), (l.map key).Nodup →
      (∀ a ∈ l, key a ∉ seen) → dedupByKey key seen l = l := by
  intro l
  induction l with
  | nil => intro seen _ _; rfl
  | cons i rest ih =>
    intro seen hnodup hdisj
    simp only [List.map_cons, List.nodup_cons] at hnodup
    have hni : key i ∉ seen := hdisj i (List.mem_cons_self _ _)
    simp only [dedupByKey, if_neg hni]
    refine congrArg (i :: ·) (ih _ hnodup.2 ?_)
    intro a ha
    simp only [List.mem_cons]
    rintro (hk | hk)
    · exact hnodup.1 (hk ▸ List.mem_map_of_mem key ha)
    · exact hdisj a (List.mem_cons_of_mem _ ha) hk

/-- The first element surviving a `dropWhile` refutes the predicate. -/
theorem dropWhile_head_false (p : α → Bool) :
    ∀ (l : List α) {c : α} {cs : List α}, l.dropWhile p = c :: cs → p c = false := by
  intro l
  induction l with
  | nil => intro c cs h; simp [List.dropWhile] at h
  | cons a as ih =>
    intro c cs h
    by_cases hp : p a
    · exact ih (by simpa [List.dropWhile, hp] using h)
    · rw [List.dropWhile_cons_of_neg (by simpa using hp)] at h
      cases h
      simpa using hp

/-- Every reachable pool state has at most `n` jobs in flight. -/
theorem poolReach_running_le {α β : Type} {n : Nat} {f : α → β} {jobs : List α}
    {s : PoolState α β} (h : PoolReach n f jobs s) : s.running.length ≤ n := by
  induction h with
  | init => exact Nat.zero_le n
  | step _ hstep ih =>
    cases hstep with
    | start it rest running done hn => exact hn
    | finish pending r1 r2 it done =>
      simp only [List.length_append] at ih ⊢
      simp only [List.length_cons] at ih
      omega

/-- Conservation: in every reachable pool state the finished outcomes are the
images under `f` of a consumed sublist, and pending, in-flight and consumed
items together are a permutation of the dispatched jobs. -/
theorem poolReach_done_eq {α β : Type} {n : Nat} {f : α → β} {jobs : List α}
    {s : PoolState α β} (h : PoolReach n f jobs s) :
    ∃ consumed : List α, s.done = consumed.map f ∧
      List.Perm (s.pending ++ s.running ++ consumed) jobs := by
  induction h with
  | init => exact ⟨[], rfl, by simp⟩
  | step _ hstep ih =>
    obtain ⟨consumed, hdone, hperm⟩ := ih
    cases hstep with
    | start it rest running done hn =>
      exact ⟨consumed, hdone, (List.perm_middle.append_right consumed).trans hperm⟩
    | finish pending r1 r2 it done =>
      refine ⟨it :: consumed, ?_, ?_⟩
      · show f it :: done = List.map f (it :: consumed)
        rw [List.map_cons]
        exact congrArg (f it :: ·) hdone
      have hA : List.Perm (pending ++ (r1 ++ it :: r2) ++ consumed)
          (it :: (pending ++ (r1 ++ r2) ++ consumed)) := by
        have h1 : List.Perm (pending ++ (r1 ++ it :: r2))
            (it :: (pending ++ (r1 ++ r2))) :=
          ((List.perm_middle.append_left pending)).trans List.perm_middle
        exact h1.append_right consumed
      have hB : List.Perm (pending ++ (r1 ++ r2) ++ (it :: consumed))
          (it :: (pending ++ (r1 ++ r2) ++ consumed)) := List.perm_middle
      exact hB.trans (hA.symm.trans hperm)

/-- Every job emits either a success carrying the resolved URL and an output
path, or a failure carrying an error message. -/
theorem runJob_shape (env : FeedItem → JobEnv) (idx : Nat) (it : FeedItem) :
    ((runJob env idx it).ok = true ∧ (runJob env idx it).finalUrl.isSome ∧
        (runJob env idx it).outPath.isSome) ∨
      ((runJob env idx it).ok = false ∧ (runJob env idx it).error.isSome) := by
  cases hres : resolveFinalUrl (env it).primary (env it).fallback it.link with
  | error e => right; simp [runJob, hres]
  | ok u =>
    cases hs : (env it).scrape u with
    | ok s => left; simp [runJob, hres, hs]
    | error e => right; simp [runJob, hres, hs]

/-- The head of a positive-length prefix is the head of the list. -/
theorem head?_take_pos (l : List α) (n : Nat) (hn : 0 < n) :
    (l.take n).head? = l.head? := by
  cases l with
  | nil => simp
  | cons a as =>
    cases n with
    | zero => omega
    | succ m => simp [List.take_succ_cons]

/-! ## Concrete values used by counterexamples and witnesses -/

/-- A feed item whose tracking link is empty, title "a". -/
def itemNoLinkA : FeedItem :=
  { title := "a", link := "", source := "", pubDate := "", isoDate := 0 }

/-- A feed item whose tracking link is empty, title "b". -/
def itemNoLinkB : FeedItem :=
  { title := "b", link := "", source := "", pubDate := "", isoDate := 0 }

/-- A feed item with a distinct tracking link. -/
def itemWithLink : FeedItem :=
  { title := "t", link := "l", source := "s", pubDate := "d", isoDate := 3 }

/-- An oracle on which every network call fails. -/
def trivJobEnv : FeedItem → JobEnv :=
  fun _ => ⟨Except.error "net", Except.error "net", fun _ => Except.error "net"⟩

/-- A scope whose paragraph, heading, paragraph appear in that document
order. -/
def cexScope : List Node := [⟨"p", "one"⟩, ⟨"h2", "head"⟩, ⟨"p", "two"⟩]

/-- A document whose only paragraph element has whitespace-only text. -/
def cexWsDoc : List Node := [⟨"p", "  "⟩]

/-- A document with one paragraph element with real text. -/
def loneParaDoc : List Node := [⟨"p", "hello"⟩]

/-! ## Claims -/

/-- C1: every manifest produced by the full pipeline satisfies
`requested = saved + failed`, where `requested` counts the deduplicated items
fed into the extraction pool, `saved` the outcomes with `ok` true and
`failed` the outcomes with `ok` false. -/
theorem c1_manifest_counts (env : FeedItem → JobEnv) (query : String)
    (fetched : List FeedItem) (limit : Nat) :
    (runFullPipeline env query fetched limit).requested =
      (runFullPipeline env query fetched limit).saved +
        (runFullPipeline env query fetched limit).failed := by
  unfold runFullPipeline buildManifest
  set picked := if limit > 0 then (dedupAndSort fetched).take limit
    else dedupAndSort fetched with hpicked
  set results := picked.mapIdx fun idx it => runJob env idx it with hresults
  show picked.length = (results.filter fun r => r.ok).length +
    (results.filter fun r => !r.ok).length
  have h : (results.filter fun r => r.ok).length +
      (results.filter fun r => !r.ok).length = results.length :=
    length_filter_add_length_filter_not (fun r => r.ok) results
  rw [h, hresults]
  simp

/-- C2: when the pool has returned (no pending and no in-flight jobs), its
outcomes are exactly one `runJob` result per dispatched item; every outcome
is either ok with a resolved URL and an output path or not-ok with the item's
error; and an item's outcome depends only on that item's own oracle entry, so
another item's failure can never change it. -/
theorem c2_pool_one_outcome_per_item (n : Nat) (env : FeedItem → JobEnv)
    (jobs : List (Nat × FeedItem)) (s : PoolState (Nat × FeedItem) RunOutcome)
    (hreach : PoolReach n (fun p => runJob env p.1 p.2) jobs s)
    (hpend : s.pending = []) (hrun : s.running = []) :
    List.Perm s.done (jobs.map fun p => runJob env p.1 p.2) ∧
      (∀ o ∈ s.done, (o.ok = true ∧ o.finalUrl.isSome ∧ o.outPath.isSome) ∨
        (o.ok = false ∧ o.error.isSome)) ∧
      ∀ (e1 e2 : FeedItem → JobEnv) (idx : Nat) (it : FeedItem),
        e1 it = e2 it → runJob e1 idx it = runJob e2 idx it := by
  obtain ⟨consumed, hdone, hperm⟩ := poolReach_done_eq hreach
  rw [hpend, hrun] at hperm
  simp only [List.nil_append] at hperm
  refine ⟨?_, ?_, ?_⟩
  · rw [hdone]; exact hperm.map _
  · intro o ho
    rw [hdone] at ho
    obtain ⟨p, _, rfl⟩ := List.mem_map.mp ho
    exact runJob_shape env p.1 p.2
  · intro e1 e2 idx it h
    simp only [runJob, h]

/-- Witness for C2: a one-item run with concurrency bound one, driven to the
returned state, has exactly that item's outcome. -/
theorem c2_pool_one_outcome_per_item_witness :
    List.Perm
      (PoolState.mk [] [] [runJob trivJobEnv 0 itemWithLink] :
        PoolState (Nat × FeedItem) RunOutcome).done
      ([((0 : Nat), itemWithLink)].map fun p => runJob trivJobEnv p.1 p.2) ∧
      (∀ o ∈ (PoolState.mk [] [] [runJob trivJobEnv 0 itemWithLink] :
          PoolState (Nat × FeedItem) RunOutcome).done,
        (o.ok = true ∧ o.finalUrl.isSome ∧ o.outPath.isSome) ∨
          (o.ok = false ∧ o.error.isSome)) ∧
      ∀ (e1 e2 : FeedItem → JobEnv) (idx : Nat) (it : FeedItem),
        e1 it = e2 it → runJob e1 idx it = runJob e2 idx it := by
  have h1 : PoolReach 1 (fun p : Nat × FeedItem => runJob trivJobEnv p.1 p.2)
      [((0 : Nat), itemWithLink)]
      ⟨[((0 : Nat), itemWithLink)], [], []⟩ := PoolReach.init
  have h2 := PoolReach.step h1
    (PoolStep.start ((0 : Nat), itemWithLink) [] [] [] (by decide))
  have h3 := PoolReach.step h2
    (PoolStep.finish [] [] [] ((0 : Nat), itemWithLink) [])
  exact c2_pool_one_outcome_per_item 1 trivJobEnv _ _ h3 rfl rfl

/-- C3 counterexample: `fetchAllYears` of src/server/index.js keys the dedup
only by `link`; on two items with empty links and distinct titles the claimed
priority key (trackingLink, else title) keeps both, but the code drops the
second. -/
theorem c3_dedup_key_cex :
    dedupKeySpec itemNoLinkA ≠ dedupKeySpec itemNoLinkB ∧
      dedupByKey linkKey [] [itemNoLinkA, itemNoLinkB] = [itemNoLinkA] ∧
      dedupByKey dedupKeySpec [] [itemNoLinkA, itemNoLinkB] =
        [itemNoLinkA, itemNoLinkB] := by decide

/-- C3 amended: the src/unnamed/part_000 variant keys each item by
publisherUrl when non-empty, else trackingLink, else title — exactly the
spec's priority order — while src/server/index.js keys by the trackingLink
alone; in both variants no two retained items share that variant's dedup
key. -/
theorem c3_dedup_key_amended :
    (∀ it : FeedItemP0, p0Key it = dedupKeySpecP0 it) ∧
      (∀ l : List FeedItemP0, ((dedupByKey p0Key [] l).map p0Key).Nodup) ∧
      (∀ l : List FeedItem, ((dedupByKey linkKey [] l).map linkKey).Nodup) :=
  ⟨fun _ => rfl, fun l => (dedupByKey_keys_nodup p0Key l []).1,
    fun l => (dedupByKey_keys_nodup linkKey l []).1⟩

/-- C4 counterexample: on a scope whose document order is paragraph, heading,
paragraph, the extractor emits the heading first — all headings are collected
before all paragraphs, not interleaved in document order. -/
theorem c4_block_order_cex :
    scrapeBlocks cexScope cexScope = ["head", "one", "two"] ∧
      docOrderBlocks cexScope = ["one", "head", "two"] ∧
      scrapeBlocks cexScope cexScope ≠ docOrderBlocks cexScope := by decide

/-- C4 amended: whenever the scoped pass yields any block, the extracted
sequence is the heading (h2-h3) texts of the scope in document order followed
by the paragraph texts of the scope in document order — two groups, each
internally in document order, not interleaved. -/
theorem c4_blocks_grouped (scope doc : List Node)
    (h : collectTexts isHeading scope ++ collectTexts isPara scope ≠ []) :
    scrapeBlocks scope doc =
      selTexts isHeading scope ++ selTexts isPara scope := by
  show (if collectTexts isHeading scope ++ collectTexts isPara scope = []
      then collectTexts isPara doc
      else collectTexts isHeading scope ++ collectTexts isPara scope) = _
  rw [if_neg h, collectTexts_eq_selTexts, collectTexts_eq_selTexts]

/-- Witness for C4: the grouped shape at a concrete non-empty scope. -/
theorem c4_blocks_grouped_witness :
    scrapeBlocks cexScope [] =
      selTexts isHeading cexScope ++ selTexts isPara cexScope :=
  c4_blocks_grouped cexScope [] (by decide)

/-- C5: the redirect resolver never raises — its result is always an ok
value for every behaviour of the two HTTP clients — and when both attempts
fail it returns the original tracking URL unchanged. -/
theorem c5_resolve_never_raises (primary fallback : Except String (Option String))
    (gnUrl e1 e2 : String) :
    (∃ u, resolveFinalUrl primary fallback gnUrl = .ok u) ∧
      resolveFinalUrl (.error e1) (.error e2) gnUrl = .ok gnUrl := by
  constructor
  · cases primary with
    | ok r => exact ⟨r.getD gnUrl, rfl⟩
    | error e =>
      cases fallback with
      | ok r => exact ⟨r.getD gnUrl, rfl⟩
      | error e2 => exact ⟨gnUrl, rfl⟩
  · rfl

/-- C6: the dedup-and-sort step leaves a sequence with pairwise distinct
dedup keys that is already sorted descending by date unchanged, and applying
it twice equals applying it once. -/
theorem c6_dedup_idempotent :
    (∀ l : List FeedItem, (l.map linkKey).Nodup → l.Sorted byDateDesc →
        dedupAndSort l = l) ∧
      ∀ l : List FeedItem, dedupAndSort (dedupAndSort l) = dedupAndSort l := by
  have hid : ∀ l : List FeedItem, (l.map linkKey).Nodup → l.Sorted byDateDesc →
      dedupAndSort l = l := by
    intro l hnodup hsorted
    unfold dedupAndSort
    rw [dedupByKey_eq_self linkKey l [] hnodup (by simp)]
    exact hsorted.insertionSort_eq
  refine ⟨hid, fun l => ?_⟩
  apply hid
  · have h1 : ((dedupByKey linkKey [] l).map linkKey).Nodup :=
      (dedupByKey_keys_nodup linkKey l []).1
    have hperm : List.Perm (dedupAndSort l) (dedupByKey linkKey [] l) :=
      List.perm_insertionSort byDateDesc _
    exact ((hperm.map linkKey).nodup_iff).mpr h1
  · exact List.sorted_insertionSort byDateDesc _

/-- Witness for C6: a unique, sorted singleton is left unchanged. -/
theorem c6_dedup_idempotent_witness :
    dedupAndSort [itemWithLink] = [itemWithLink] :=
  c6_dedup_idempotent.1 [itemWithLink] (by decide) (List.sorted_singleton _)

/-- C7 counterexample: a document whose only paragraph element has
whitespace-only text defeats the claimed guarantee — a paragraph element
exists anywhere in the document, yet the extractor returns zero blocks,
because both the scoped pass and the wide fallback drop cleaned-empty
texts. -/
theorem c7_wide_fallback_cex :
    cexWsDoc.any isPara = true ∧ scrapeBlocks cexWsDoc cexWsDoc = [] := by
  decide

/-- C7 amended: whenever some paragraph element anywhere in the document has
non-empty cleaned text, the extractor's block list is non-empty, by the
scoped pass or else by the wide fallback. -/
theorem c7_paragraphs_nonempty (scope doc : List Node)
    (h : ∃ nd ∈ doc, isPara nd = true ∧ clean nd.text ≠ "") :
    scrapeBlocks scope doc ≠ [] := by
  obtain ⟨nd, hmem, hpara, htext⟩ := h
  show (if collectTexts isHeading scope ++ collectTexts isPara scope = []
      then collectTexts isPara doc
      else collectTexts isHeading scope ++ collectTexts isPara scope) ≠ []
  by_cases hempty : collectTexts isHeading scope ++ collectTexts isPara scope = []
  · rw [if_pos hempty, collectTexts_eq_selTexts]
    have hmem2 : clean nd.text ∈ selTexts isPara doc := by
      unfold selTexts
      refine List.mem_filter.mpr
        ⟨List.mem_map_of_mem _ (List.mem_filter.mpr ⟨hmem, hpara⟩), ?_⟩
      simpa using htext
    exact List.ne_nil_of_mem hmem2
  · rw [if_neg hempty]; exact hempty

/-- Witness for C7: one paragraph with real text anywhere in the document
yields a non-empty block list even for an empty scope. -/
theorem c7_paragraphs_nonempty_witness :
    scrapeBlocks [] loneParaDoc ≠ [] :=
  c7_paragraphs_nonempty [] loneParaDoc ⟨⟨"p", "hello"⟩, by decide⟩

/-- C8: `fetchNews` absorbs a failed RSS GET and a failed XML parse into an
empty item list instead of raising, and in the year fan-out a failing year
contributes nothing while the remaining years are unaffected. -/
theorem c8_fetch_news_absorbs :
    (∀ (e : String) parseO dateParse, fetchNews (.error e) parseO dateParse = []) ∧
      (∀ (body : String) parseO dateParse (e : String), parseO body = .error e →
        fetchNews (.ok body) parseO dateParse = []) ∧
      ∀ dateParse (env : Int → YearEnv) (y : Int) (ys : List Int) (e : String),
        (env y).fetchO = .error e →
        fetchYearsConcat dateParse env (y :: ys) =
          fetchYearsConcat dateParse env ys := by
  refine ⟨fun e parseO dateParse => rfl, ?_, ?_⟩
  · intro body parseO dateParse e h
    simp [fetchNews, h]
  · intro dateParse env y ys e h
    simp [fetchYearsConcat, fetchNews, h]

/-- Witness for C8: a malformed XML body yields the empty item list. -/
theorem c8_fetch_news_absorbs_witness :
    fetchNews (.ok "rss") (fun _ => .error "bad xml") (fun _ => none) = [] :=
  c8_fetch_news_absorbs.2.1 "rss" (fun _ => .error "bad xml")
    (fun _ => none) "bad xml" rfl

/-- C9: with concurrency bound `n`, no reachable state of the pool running
the /api/news/full jobs ever has more than `n` items in flight. -/
theorem c9_pool_bounded (n : Nat) (env : FeedItem → JobEnv)
    (jobs : List (Nat × FeedItem)) (s : PoolState (Nat × FeedItem) RunOutcome)
    (hreach : PoolReach n (fun p => runJob env p.1 p.2) jobs s) :
    s.running.length ≤ n :=
  poolReach_running_le hreach

/-- Witness for C9: the idle starting state of a one-item run respects the
bound. -/
theorem c9_pool_bounded_witness :
    (PoolState.mk [((0 : Nat), itemWithLink)] [] [] :
      PoolState (Nat × FeedItem) RunOutcome).running.length ≤ 5 :=
  c9_pool_bounded 5 trivJobEnv [((0 : Nat), itemWithLink)] _ PoolReach.init

/-- C10: for every title slug and every fallback slug — hence for every input
string, null or empty included — `safeFileName` yields at most 120 characters
and never a leading dot. -/
theorem c10_safe_file_name (slugStr slugFb : List Char) :
    (safeFileName slugStr slugFb).length ≤ 120 ∧
      (safeFileName slugStr slugFb).head? ≠ some '.' := by
  constructor
  · exact List.length_take_le 120 _
  · unfold safeFileName
    rw [head?_take_pos _ 120 (by norm_num)]
    cases hdrop : (if slugStr = [] then slugFb else slugStr).dropWhile
        (fun c => c = '.') with
    | nil => simp [hdrop]
    | cons c cs =>
      have hc : c ≠ '.' := by simpa using dropWhile_head_false _ _ hdrop
      simp [hdrop, hc]

end DataScraper
